import Mathlib

/-!
Verification of the Pinniped schema-management core: a shallow embedding of
the Table/Column models, the validator, the schema diff engine rendered by
`Table.updateTo`, the create path, and the row rehydration step
(`parseJsonColumns`), with theorems settling the specified properties.
-/

namespace Pinniped

/-- Metadata the type registry stores for one declared column type.  The only
behavioural flag the embedded code reads is `isJson` (whether values of the
type are stored as encoded text and must be decoded on read). -/
structure ColumnMeta where
  isJson : Bool
deriving DecidableEq

/-- The type registry `Column.COLUMN_MAP`.  Its contents are not under the
sources provided (only its callers `Column.isValidType` and
`parseJsonColumns` are), so it is kept abstract as a lookup function;
`none` models a type name with no registry entry. -/
abbrev Registry : Type := String → Option ColumnMeta

/-- Modelled from the spec: `Column.isValidType` (called by `Table.validate`,
its definition is not among the provided sources): a type is valid exactly
when it resolves to a known entry of the registry ("`type`: string key into
the Type Registry; must resolve to a known entry"). -/
def isValidType (reg : Registry) (ty : String) : Bool :=
  (reg ty).isSome

/-- A free-form options bag (key/value pairs). -/
abbrev Options : Type := List (String × String)

/-- `Column` (column.js): the fields the constructor assigns.  The
constructor receives an `options` argument, but the assignment
`this.options = options;` is commented out in the source, so a constructed
column never carries the bag; `options` is therefore modelled as an
optional field that the constructor leaves at `none`. -/
structure Column where
  id : String
  name : String
  type : String
  options : Option Options := none
deriving DecidableEq

/-- The argument object of the `Column` constructor:
`constructor({ id = uuidv4(), name, type, options = \x7b\x7d })`. -/
structure ColumnInput where
  id : Option String := none
  name : String
  type : String
  options : Options := []
deriving DecidableEq

/-- The `Column` constructor.  `freshId` stands for the `uuidv4()` value used
when the caller supplies no id.  The source line `this.options = options;`
is commented out, so the options bag is discarded. -/
def newColumn (freshId : String) (inp : ColumnInput) : Column :=
  { id := inp.id.getD freshId
    name := inp.name
    type := inp.type
    options := none }

/-- `Table.API_RULE_VALUES`. -/
def API_RULE_VALUES : List String := ["public", "user", "creator", "admin"]

/-- `Table.DEFAULT_RULE`. -/
def DEFAULT_RULE : String := "public"

/-- `Table` (table.js): the fields the constructor assigns. -/
structure Table where
  id : String
  name : String
  columns : List Column
  getAllRule : String := DEFAULT_RULE
  getOneRule : String := DEFAULT_RULE
  createRule : String := DEFAULT_RULE
  updateRule : String := DEFAULT_RULE
  deleteRule : String := DEFAULT_RULE
deriving DecidableEq

/-- `Table.validate` (table.js lines 52-99), check for check in source order.
The duplicate-name check compares the name list's length with the size of
the `Set` built from it, embedded as `List.dedup`; the closing `forEach`
over `Table.API_RULES` is unrolled into its five membership checks in the
order of `API_RULES`. -/
def validate (reg : Registry) (t : Table) : Except String Unit :=
  if t.id == "" then .error "Table does not have a valid ID."
  else if t.name == "" then .error "The table must have a name."
  else if t.columns.length == 0 then .error "The table must have at least one column."
  else if !(t.columns.all fun c => c.id != "") then .error "Columns must have IDs."
  else if !(t.columns.all fun c => c.name != "") then .error "All columns must have names."
  else if !(t.columns.all fun c => c.type != "") then .error "All columns must have types."
  else if !(t.columns.all fun c => isValidType reg c.type) then .error "Invalid type passed."
  else if t.columns.any (fun c =>
      c.name == "id" || c.name == "created_at" || c.name == "updated_at") then
    .error "Cannot add a column with a name of id, created_at, or updated_at"
  else if (t.columns.map Column.name).length != (t.columns.map Column.name).dedup.length then
    .error "All column names must be unique for a single table."
  else if !(API_RULE_VALUES.contains t.getAllRule) then .error "Invalid getAllRule"
  else if !(API_RULE_VALUES.contains t.getOneRule) then .error "Invalid getOneRule"
  else if !(API_RULE_VALUES.contains t.createRule) then .error "Invalid createRule"
  else if !(API_RULE_VALUES.contains t.updateRule) then .error "Invalid updateRule"
  else if !(API_RULE_VALUES.contains t.deleteRule) then .error "Invalid deleteRule"
  else .ok ()

/-- A column name reserved by the system. -/
def reservedName (s : String) : Prop :=
  s = "id" ∨ s = "created_at" ∨ s = "updated_at"

instance (s : String) : Decidable (reservedName s) := by
  unfold reservedName
  infer_instance

/-- The specification's invariant set for a valid table, stated in the
spec's words: non-empty id and name; at least one column; all columns have
non-empty id/name/type; every type resolves in the registry; no reserved
column names; all column names unique; all five rule attributes take a
value from the allowed set. -/
def specValid (reg : Registry) (t : Table) : Prop :=
  t.id ≠ "" ∧ t.name ≠ "" ∧ t.columns ≠ [] ∧
  (∀ c ∈ t.columns, c.id ≠ "") ∧
  (∀ c ∈ t.columns, c.name ≠ "") ∧
  (∀ c ∈ t.columns, c.type ≠ "") ∧
  (∀ c ∈ t.columns, (reg c.type).isSome = true) ∧
  (∀ c ∈ t.columns, ¬ reservedName c.name) ∧
  (t.columns.map Column.name).Nodup ∧
  t.getAllRule ∈ API_RULE_VALUES ∧
  t.getOneRule ∈ API_RULE_VALUES ∧
  t.createRule ∈ API_RULE_VALUES ∧
  t.updateRule ∈ API_RULE_VALUES ∧
  t.deleteRule ∈ API_RULE_VALUES

instance (reg : Registry) (t : Table) : Decidable (specValid reg t) := by
  unfold specValid
  infer_instance

/-- The argument object of the `Table` constructor, with the source's
defaults.  The source also accepts `columns` as a JSON string and parses it
first; the embedding models the already-structured case. -/
structure TableInput where
  id : Option String := none
  name : String := ""
  columns : List ColumnInput := []
  getAllRule : String := DEFAULT_RULE
  getOneRule : String := DEFAULT_RULE
  createRule : String := DEFAULT_RULE
  updateRule : String := DEFAULT_RULE
  deleteRule : String := DEFAULT_RULE

/-- The field assignments of the `Table` constructor: defaults applied, each
column object passed through the `Column` constructor (`freshIds k` stands
for the `uuidv4()` default of the k-th column, `freshTableId` for the
table's own). -/
def buildTable (freshTableId : String) (freshIds : Nat → String) (inp : TableInput) : Table :=
  { id := inp.id.getD freshTableId
    name := inp.name
    columns := inp.columns.enum.map fun p => newColumn (freshIds p.1) p.2
    getAllRule := inp.getAllRule
    getOneRule := inp.getOneRule
    createRule := inp.createRule
    updateRule := inp.updateRule
    deleteRule := inp.deleteRule }

/-- The `Table` constructor: assign the fields, then `this.validate()`
before anything else can observe the object. -/
def newTable (freshTableId : String) (freshIds : Nat → String) (reg : Registry)
    (inp : TableInput) : Except String Table :=
  match validate reg (buildTable freshTableId freshIds inp) with
  | .ok () => .ok (buildTable freshTableId freshIds inp)
  | .error e => .error e

/-- A concrete registry used to evaluate the development on closed inputs;
the theorems themselves quantify over every registry. -/
def sampleRegistry : Registry := fun s =>
  if s = "text" then some ⟨false⟩
  else if s = "number" then some ⟨false⟩
  else if s = "json" then some ⟨true⟩
  else none

/-- One operation against the physical store or the catalog, as the rendered
migration invokes it on the DAO: each constructor carries exactly the
arguments the source passes. -/
inductive Op where
  | createTable (t : Table)
  | dropTable (name : String)
  | addTableMetaData (t : Table)
  | deleteTableMetaData (id : String)
  | updateTableMetaData (t : Table)
  | dropColumn (table : String) (column : String)
  | addColumn (table : String) (column : Column)
  | renameColumn (table : String) (oldName : String) (newName : String)
  | renameTable (oldName : String) (newName : String)
deriving DecidableEq

/-- The forward operation sequence the `up` function of the migration
rendered by `Table.updateTo` executes (table.js lines 263-295): drop the
old columns whose id has no counterpart, then per new column add or rename,
then rename the table when the name changed, then replace the catalog row
with the new table.  Each loop is a fold appending the awaited calls in
execution order. -/
def updateUpOps (old new : Table) : List Op :=
  let afterDrops :=
    old.columns.foldl
      (fun acc oldColumn =>
        if (new.columns.find? fun newColumn => oldColumn.id == newColumn.id).isSome then acc
        else acc ++ [Op.dropColumn old.name oldColumn.name])
      []
  let afterCols :=
    new.columns.foldl
      (fun acc newColumn =>
        match old.columns.find? fun oldColumn => oldColumn.id == newColumn.id with
        | none => acc ++ [Op.addColumn old.name newColumn]
        | some m =>
          if m.name != newColumn.name then
            acc ++ [Op.renameColumn old.name m.name newColumn.name]
          else acc)
      afterDrops
  let afterRename :=
    if old.name != new.name then afterCols ++ [Op.renameTable old.name new.name]
    else afterCols
  afterRename ++ [Op.updateTableMetaData new]

/-- The backward operation sequence the `down` function of the same
migration executes (table.js lines 297-330): the identical loop bodies with
the old and new tables, and their column lists, swapped, ending with the
catalog replaced by the old table. -/
def updateDownOps (old new : Table) : List Op :=
  let oldTable := new
  let newTable := old
  let afterDrops :=
    oldTable.columns.foldl
      (fun acc oldColumn =>
        if (newTable.columns.find? fun newColumn => oldColumn.id == newColumn.id).isSome then acc
        else acc ++ [Op.dropColumn oldTable.name oldColumn.name])
      []
  let afterCols :=
    newTable.columns.foldl
      (fun acc newColumn =>
        match oldTable.columns.find? fun oldColumn => oldColumn.id == newColumn.id with
        | none => acc ++ [Op.addColumn oldTable.name newColumn]
        | some m =>
          if m.name != newColumn.name then
            acc ++ [Op.renameColumn oldTable.name m.name newColumn.name]
          else acc)
      afterDrops
  let afterRename :=
    if oldTable.name != newTable.name then afterCols ++ [Op.renameTable oldTable.name newTable.name]
    else afterCols
  afterRename ++ [Op.updateTableMetaData newTable]

/-- The drop operations of the forward diff, as the spec describes them:
one per old column whose id is absent from the new table, in the old
table's column order. -/
def dropList (old new : Table) : List Op :=
  (old.columns.filter fun oldColumn =>
      !(new.columns.find? fun newColumn => oldColumn.id == newColumn.id).isSome).map
    fun oldColumn => Op.dropColumn old.name oldColumn.name

/-- The operations the add-or-rename loop emits for one new column. -/
def colOps (old : Table) (newColumn : Column) : List Op :=
  match old.columns.find? fun oldColumn => oldColumn.id == newColumn.id with
  | none => [Op.addColumn old.name newColumn]
  | some m =>
    if m.name != newColumn.name then [Op.renameColumn old.name m.name newColumn.name]
    else []

/-- The add and rename operations of the forward diff, in the new table's
column order. -/
def addRenameList (old new : Table) : List Op :=
  new.columns.flatMap (colOps old)

/-- A sample table revision used only to evaluate theorems on closed inputs. -/
def sealsOld : Table :=
  { id := "T1", name := "seals",
    columns := [{ id := "C1", name := "age", type := "number" },
                { id := "C2", name := "fur", type := "text" }] }

/-- A second revision of `sealsOld`: column C1 renamed, C2 dropped, C3
added, and the table renamed. -/
def sealsNew : Table :=
  { id := "T1", name := "elephant_seals",
    columns := [{ id := "C1", name := "years", type := "number" },
                { id := "C3", name := "diet", type := "json" }] }

/-- The rename-column operations attributable, through their source-name
argument, to the old column named `a` of table `tbl`. -/
def isRenameFrom (tbl a : String) : Op → Bool
  | Op.renameColumn t x _ => t == tbl && x == a
  | _ => false

/-- The rename-column operations attributable, through their target-name
argument, to the new column named `b` of table `tbl`. -/
def isRenameTo (tbl b : String) : Op → Bool
  | Op.renameColumn t _ y => t == tbl && y == b
  | _ => false

/-- The add-column operations attributable to the column id `i`. -/
def isAddOfId (tbl i : String) : Op → Bool
  | Op.addColumn t c => t == tbl && c.id == i
  | _ => false

/-- The drop-column operations attributable, through their name argument, to
the old column named `n`. -/
def isDropOf (tbl n : String) : Op → Bool
  | Op.dropColumn t x => t == tbl && x == n
  | _ => false

/-- A revision with a single column, whose id recurs twice in the next
revision: `validate` does not reject duplicate column ids. -/
def dupIdOld : Table :=
  { id := "T2", name := "pups", columns := [{ id := "c", name := "x", type := "text" }] }

/-- The successor revision of `dupIdOld`, carrying the id `c` twice under
two different names. -/
def dupIdNew : Table :=
  { id := "T2", name := "pups",
    columns := [{ id := "c", name := "y", type := "text" },
                { id := "c", name := "z", type := "text" }] }

/-- `Table.validateUpdateTo` (table.js lines 106-114): the only enforced
rule is that the table id must not change; the source's comments name
column type changes and relationships as unimplemented checks. -/
def validateUpdateTo (old newT : Table) : Except String Unit :=
  if old.id != newT.id then .error "Table ID cannot be changed."
  else .ok ()

/-- The validation-gated forward synthesis of `Table.updateTo` (table.js
lines 240-339): `validateUpdateTo` runs first; only on success are the
forward operations rendered. -/
def updateToOps (old newT : Table) : Except String (List Op) :=
  match validateUpdateTo old newT with
  | .error e => .error e
  | .ok () => .ok (updateUpOps old newT)

/-- The externally observable resource events of one migration-running
method call. -/
inductive Ev where
  | acquireConnection
  | migrateMake
  | writeMigrationFile
  | migrateUp
  | destroyConnection
deriving DecidableEq

/-- The event trace of `Table.updateTo` (table.js lines 240-339).  Each
`await` may reject; an exception propagates out of the method at once —
there is no try/finally — so the steps after the failing one, including
`db.destroy()`, never run.  `makeOk` and `upOk` say whether
`db.migrate.make` and `db.migrate.up` succeed. -/
def updateToTrace (old newT : Table) (makeOk upOk : Bool) : List Ev :=
  if old.id != newT.id then []
  else if !makeOk then [Ev.acquireConnection, Ev.migrateMake]
  else if !upOk then
    [Ev.acquireConnection, Ev.migrateMake, Ev.writeMigrationFile, Ev.migrateUp]
  else
    [Ev.acquireConnection, Ev.migrateMake, Ev.writeMigrationFile, Ev.migrateUp,
      Ev.destroyConnection]

/-- Modelled from the spec: `DAO.findTableByName` (the DAO is not among the
provided sources): `findTableByName(name) -> [Table]`, the catalog's tables
bearing the name. -/
def findTableByName (catalog : List Table) (name : String) : List Table :=
  catalog.filter fun t => t.name == name

/-- The conflict-guarded forward synthesis of `Table.create` (table.js
lines 144-185): reject when `findTableByName` returns anything, else
render `createTable` plus the catalog insert (the rendered down logic
being the drop and the catalog delete). -/
def createOps (catalog : List Table) (t : Table) : Except String (List Op) :=
  if (findTableByName catalog t.name).length != 0 then
    .error "The table name already exists."
  else .ok [Op.createTable t, Op.addTableMetaData t]

/-- A stored cell value: either the raw (possibly encoded) text as read
from the store, or a structured value produced by decoding. -/
inductive Value where
  | raw (s : String)
  | parsed (s : String)
deriving DecidableEq

/-- One row, as the key/value pairs the store returned. -/
abbrev Row : Type := List (String × Value)

/-- Modelled from the spec: `Table.getColumnByName` (called by
`parseJsonColumns`; the provided sources define only `getColumnById`, the
spec's `columnById`): the by-name column lookup. -/
def getColumnByName (t : Table) (name : String) : Option Column :=
  t.columns.find? fun c => c.name == name

/-- One key of one row under `parseJsonColumns` (parse_json_columns.js,
`console.log` calls omitted): reserved keys are skipped before any lookup;
otherwise the registry entry of the named column's type is read —
`Column.COLUMN_MAP[columnType].isJson` throws a TypeError when the column
or its registry entry is missing, modelled as the error case — and for a
JSON-typed column the stored value is decoded, a failed decode being
caught (`try/catch` around `JSON.parse`) and leaving the value unchanged.
`dec` stands for `JSON.parse`, returning `none` where the source throws. -/
def rehydrateValue (reg : Registry) (dec : Value → Option Value) (t : Table)
    (k : String) (v : Value) : Except String Value :=
  if k == "id" || k == "created_at" || k == "updated_at" then .ok v
  else
    match (getColumnByName t k).bind fun c => reg c.type with
    | none => .error "TypeError"
    | some meta =>
      if meta.isJson then
        match dec v with
        | some v2 => .ok v2
        | none => .ok v
      else .ok v

/-- Sequencing of independent per-element computations, failing on the
first error, as the loops of `parseJsonColumns` do. -/
def mapExcept {α β : Type} (f : α → Except String β) : List α → Except String (List β)
  | [] => .ok []
  | a :: l =>
    match f a, mapExcept f l with
    | .ok b, .ok bs => .ok (b :: bs)
    | .error e, _ => .error e
    | .ok _, .error e => .error e

/-- One row under `parseJsonColumns`: every key processed in order, the
value stored back under its key. -/
def parseJsonRow (reg : Registry) (dec : Value → Option Value) (t : Table)
    (row : Row) : Except String Row :=
  mapExcept (fun kv => (rehydrateValue reg dec t kv.1 kv.2).map fun v2 => (kv.1, v2)) row

/-- `parseJsonColumns(table, rows)` (parse_json_columns.js lines 3-23):
rehydrate every row of the result set. -/
def parseJsonColumns (reg : Registry) (dec : Value → Option Value) (t : Table)
    (rows : List Row) : Except String (List Row) :=
  mapExcept (parseJsonRow reg dec t) rows

/-- The value `parseJsonColumns` leaves under one key when it completes:
unchanged for reserved keys and non-JSON types, the decoded value for a
JSON type when decoding succeeds, the raw stored value when it fails. -/
def rehydratedValue (reg : Registry) (dec : Value → Option Value) (t : Table)
    (k : String) (v : Value) : Value :=
  if k == "id" || k == "created_at" || k == "updated_at" then v
  else
    match (getColumnByName t k).bind fun c => reg c.type with
    | none => v
    | some meta => if meta.isJson then (dec v).getD v else v

/-- A table carrying one JSON-typed and one text-typed column, used to
evaluate the rehydration theorems. -/
def petsTable : Table :=
  { id := "T3", name := "pets",
    columns := [{ id := "P1", name := "toys", type := "json" },
                { id := "P2", name := "nick", type := "text" }] }

/-- A concrete stand-in for `JSON.parse`: decodes exactly the text
`[1,2]`, fails on everything else. -/
def sampleDec : Value → Option Value
  | Value.raw "[1,2]" => some (Value.parsed "[1,2]")
  | _ => none

/-- Two result rows: one whose JSON value decodes, one whose stored JSON
value is malformed. -/
def sampleRows : List Row :=
  [[("id", Value.raw "7"), ("toys", Value.raw "[1,2]"), ("nick", Value.raw "rex")],
   [("id", Value.raw "8"), ("toys", Value.raw "oops"), ("created_at", Value.raw "t0")]]

/-- What rehydration leaves of `sampleRows`: the decodable JSON value
replaced by its decoding, the malformed one returned unchanged, everything
else untouched. -/
def sampleRowsOut : List Row :=
  [[("id", Value.raw "7"), ("toys", Value.parsed "[1,2]"), ("nick", Value.raw "rex")],
   [("id", Value.raw "8"), ("toys", Value.raw "oops"), ("created_at", Value.raw "t0")]]

/-- A list has as many elements as its dedup exactly when it has no
duplicates (the source compares `colNames.length` with `new Set(colNames).size`). -/
theorem length_eq_dedup_length_iff {α : Type} [DecidableEq α] (l : List α) :
    l.length = l.dedup.length ↔ l.Nodup := by
  constructor
  · intro h
    have hsub : l.dedup.Sublist l := List.dedup_sublist l
    have heq : l.dedup = l := hsub.eq_of_length h.symm
    rw [← heq]
    exact l.nodup_dedup
  · intro h
    rw [List.dedup_eq_self.mpr h]

/-- A guard of the validator: the branch succeeds exactly when the guard is
down and the rest succeeds. -/
theorem guard_ok_iff (c : Bool) (msg : String) (rest : Except String Unit) :
    (if c then Except.error msg else rest) = .ok () ↔ (c = false ∧ rest = .ok ()) := by
  cases c <;> simp

/-- `validate` succeeds exactly when every invariant of the spec's invariant
set holds. -/
theorem validate_ok_iff (reg : Registry) (t : Table) :
    validate reg t = .ok () ↔ specValid reg t := by
  have hd := length_eq_dedup_length_iff (t.columns.map Column.name)
  rw [List.length_map] at hd
  rw [validate]
  simp only [guard_ok_iff]
  simp [specValid, isValidType, reservedName, List.all_eq_true, List.any_eq_false,
    List.length_eq_zero, hd, and_assoc, not_or, Bool.not_eq_true]

/-- C2: `validate()` succeeds exactly when all invariants hold: non-empty
table id and name, at least one column, per-column non-empty id/name/type,
every type registered, no reserved column name, pairwise distinct column
names, and the five rule attributes among the allowed values; otherwise it
fails with an error, and the same check gates construction: `newTable`
returns the built table exactly when the built table satisfies the
invariant set. -/
theorem c2_validate_iff_invariants (reg : Registry) (t : Table) :
    (validate reg t = .ok () ↔ specValid reg t) ∧
    (¬ specValid reg t → ∃ e, validate reg t = .error e) ∧
    (∀ fid fids inp, newTable fid fids reg inp = .ok (buildTable fid fids inp) ↔
      specValid reg (buildTable fid fids inp)) := by
  refine ⟨validate_ok_iff reg t, ?_, ?_⟩
  · intro hns
    cases hv : validate reg t with
    | ok u =>
      cases u
      exact absurd ((validate_ok_iff reg t).mp hv) hns
    | error e => exact ⟨e, rfl⟩
  · intro fid fids inp
    unfold newTable
    cases hv : validate reg (buildTable fid fids inp) with
    | ok u =>
      cases u
      exact iff_of_true rfl ((validate_ok_iff _ _).mp hv)
    | error e =>
      constructor
      · intro h
        cases h
      · intro hs
        rw [(validate_ok_iff _ _).mpr hs] at hv
        cases hv

/-- C9 counterexample: the `Column` constructor does not retain the supplied
options bag (the assignment is commented out in the source); the
constructed column's `options` attribute is absent, not the supplied bag. -/
theorem c9_counterexample :
    ¬ ((newColumn "uuid-1"
        { id := some "c1", name := "age", type := "number",
          options := [("min", "0")] }).options = some [("min", "0")]) := by
  decide

/-- C9 amended: `newColumn(name, type, options)` constructs the Column with
the supplied (or freshly generated) id, the supplied name and type, but
discards the supplied options bag: the `options` attribute of the
constructed column is absent (`none`). -/
theorem c9_options_discarded (freshId : String) (inp : ColumnInput) :
    (newColumn freshId inp).options = none ∧
    (newColumn freshId inp).id = inp.id.getD freshId ∧
    (newColumn freshId inp).name = inp.name ∧
    (newColumn freshId inp).type = inp.type :=
  ⟨rfl, rfl, rfl, rfl⟩

/-- A fold that skips an element or appends one rendered operation is the
map of the filtered list. -/
theorem foldl_skip_or_append {α β : Type} (p : α → Bool) (f : α → β) (l : List α)
    (init : List β) :
    l.foldl (fun acc x => if p x then acc else acc ++ [f x]) init
      = init ++ (l.filter fun x => !p x).map f := by
  induction l generalizing init with
  | nil => simp
  | cons a l ih =>
    by_cases h : p a
    · simp [h, ih]
    · simp [h, ih]

/-- The add-or-rename loop appends exactly the per-column blocks `colOps`. -/
theorem foldl_colOps (old : Table) (l : List Column) (init : List Op) :
    l.foldl
      (fun acc newColumn =>
        match old.columns.find? fun oldColumn => oldColumn.id == newColumn.id with
        | none => acc ++ [Op.addColumn old.name newColumn]
        | some m =>
          if m.name != newColumn.name then
            acc ++ [Op.renameColumn old.name m.name newColumn.name]
          else acc)
      init = init ++ l.flatMap (colOps old) := by
  induction l generalizing init with
  | nil => simp
  | cons a l ih =>
    simp only [List.foldl_cons, List.flatMap_cons]
    cases hf : old.columns.find? fun oldColumn => oldColumn.id == a.id with
    | none => simp only [hf]; rw [ih]; simp [colOps, hf]
    | some m =>
      by_cases hn : (m.name != a.name) = true
      · simp only [hf, hn, if_true]
        rw [ih]
        simp [colOps, hf, hn]
      · simp only [hf, hn, if_false]
        rw [ih]
        simp [colOps, hf, hn]

/-- The forward sequence decomposes into the spec's four phases: drops in
the old table's column order, then adds and renames in the new table's
column order, then the table rename exactly when the name changed, then,
unconditionally, the catalog replace with the new table. -/
theorem updateUpOps_eq (old new : Table) :
    updateUpOps old new = dropList old new ++ addRenameList old new ++
      (if old.name != new.name then [Op.renameTable old.name new.name] else []) ++
      [Op.updateTableMetaData new] := by
  simp only [updateUpOps]
  rw [foldl_skip_or_append, foldl_colOps]
  by_cases h : (old.name != new.name) = true <;>
    simp [h, dropList, addRenameList, List.append_assoc]

/-- C1: the backward sequence of an update migration is the diff algorithm
re-run with the two revisions swapped — for every pair of valid Table
revisions sharing an id, `down` (rendered from the swapped inputs) equals
`diff(new, old)` as a multiset of operations. -/
theorem c1_down_is_swapped_diff (reg : Registry) (old new : Table)
    (hid : old.id = new.id)
    (hold : validate reg old = .ok ()) (hnew : validate reg new = .ok ()) :
    (updateDownOps old new : Multiset Op) = (updateUpOps new old : Multiset Op) := rfl

/-- C1 evaluated on a concrete valid pair of revisions. -/
theorem c1_down_is_swapped_diff_witness :
    sealsOld.id = sealsNew.id ∧ validate sampleRegistry sealsOld = .ok () ∧
    validate sampleRegistry sealsNew = .ok () ∧
    (updateDownOps sealsOld sealsNew : Multiset Op) =
      (updateUpOps sealsNew sealsOld : Multiset Op) :=
  ⟨rfl, rfl, rfl, c1_down_is_swapped_diff sampleRegistry sealsOld sealsNew rfl rfl rfl⟩

/-- C3: the forward operations of one update migration execute in exactly
this order: the drop-columns for old columns whose id is absent from the
new table, in the old table's column order; then, in the new table's column
order, the add-columns for columns with fresh ids interleaved with the
rename-columns for id-matched columns whose name changed; then the
rename-table exactly when the table name changed; and finally,
unconditionally, the catalog row replace with the full new table. -/
theorem c3_forward_order (old new : Table) :
    updateUpOps old new =
      dropList old new ++ addRenameList old new ++
        (if old.name ≠ new.name then [Op.renameTable old.name new.name] else []) ++
        [Op.updateTableMetaData new] := by
  rw [updateUpOps_eq]
  by_cases h : old.name = new.name <;> simp [h]

/-- A flat map none of whose blocks satisfies the count has count zero. -/
theorem countP_flatMap_zero {α : Type} (g : α → List Op) (p : Op → Bool) (l : List α)
    (h : ∀ x ∈ l, (g x).countP p = 0) : (l.flatMap g).countP p = 0 := by
  induction l with
  | nil => simp
  | cons a l ih =>
    rw [List.flatMap_cons, List.countP_append, h a (List.mem_cons_self a l),
      ih fun x hx => h x (List.mem_cons_of_mem a hx)]

/-- In a duplicate-free flat map whose blocks other than `a`'s count
nothing, the total count is `a`'s block's count. -/
theorem countP_flatMap_single {α : Type} (g : α → List Op) (p : Op → Bool)
    (l : List α) (hl : l.Nodup) (a : α) (ha : a ∈ l)
    (hother : ∀ x ∈ l, x ≠ a → (g x).countP p = 0) :
    (l.flatMap g).countP p = (g a).countP p := by
  induction l with
  | nil => cases ha
  | cons b l ih =>
    rw [List.nodup_cons] at hl
    rw [List.flatMap_cons, List.countP_append]
    rcases List.mem_cons.mp ha with h | h
    · subst h
      rw [countP_flatMap_zero]
      · rw [Nat.add_zero]
      · intro x hx
        refine hother x (List.mem_cons_of_mem _ hx) ?_
        intro he
        exact hl.1 (he ▸ hx)
    · rw [hother b (List.mem_cons_self b l) ?_,
        ih hl.2 h fun x hx hne => hother x (List.mem_cons_of_mem _ hx) hne]
      · rw [Nat.zero_add]
      · intro he
        exact hl.1 (he ▸ h)

/-- In a duplicate-free list whose only element satisfying `p` is the member
`a`, the count is one. -/
theorem countP_single_mem {α : Type} (p : α → Bool) (l : List α) (hl : l.Nodup)
    (a : α) (ha : a ∈ l) (hpa : p a = true)
    (huniq : ∀ x ∈ l, p x = true → x = a) : l.countP p = 1 := by
  induction l with
  | nil => cases ha
  | cons b l ih =>
    rw [List.nodup_cons] at hl
    rcases List.mem_cons.mp ha with h | h
    · subst h
      have hz : l.countP p = 0 := by
        refine List.countP_eq_zero.mpr fun x hx hpx => ?_
        exact hl.1 ((huniq x (List.mem_cons_of_mem _ hx) hpx) ▸ hx)
      rw [List.countP_cons, hz, hpa]
      simp
    · have hb : p b = false := by
        cases hpb : p b with
        | false => rfl
        | true =>
          have : b = a := huniq b (List.mem_cons_self b l) hpb
          exact absurd (this ▸ h) hl.1
      rw [List.countP_cons, hb,
        ih hl.2 h fun x hx hpx => huniq x (List.mem_cons_of_mem _ hx) hpx]
      simp

/-- In a column list with pairwise distinct ids, the id search finds exactly
the member carrying that id. -/
theorem find?_by_id (l : List Column) (hl : (l.map Column.id).Nodup) (c : Column)
    (hc : c ∈ l) : (l.find? fun x => x.id == c.id) = some c := by
  induction l with
  | nil => cases hc
  | cons a l ih =>
    simp only [List.map_cons, List.nodup_cons] at hl
    rcases List.mem_cons.mp hc with h | h
    · subst h
      rw [List.find?_cons_of_pos]
      simp
    · have hne : (a.id == c.id) = false := by
        refine beq_eq_false_iff_ne.mpr fun he => ?_
        exact hl.1 (he ▸ List.mem_map_of_mem Column.id h)
      rw [List.find?_cons_of_neg, ih hl.2 h]
      simp [hne]

/-- Every operation the add-or-rename loop emits for one new column is
either the add of that column (no id match) or the rename of its id match. -/
theorem mem_colOps {old : Table} {x : Column} {op : Op} (hop : op ∈ colOps old x) :
    ((old.columns.find? fun o => o.id == x.id) = none ∧ op = Op.addColumn old.name x) ∨
    (∃ m, (old.columns.find? fun o => o.id == x.id) = some m ∧ (m.name != x.name) = true ∧
      op = Op.renameColumn old.name m.name x.name) := by
  unfold colOps at hop
  split at hop
  · next hf =>
    left
    exact ⟨hf, List.mem_singleton.mp hop⟩
  · next m hf =>
    split at hop
    · next hmn =>
      right
      exact ⟨m, hf, hmn, List.mem_singleton.mp hop⟩
    · cases hop

/-- Every drop operation of the forward diff drops an old column whose id
has no counterpart in the new table. -/
theorem mem_dropList {old new : Table} {op : Op} (hop : op ∈ dropList old new) :
    ∃ c, c ∈ old.columns ∧ (new.columns.find? fun n => c.id == n.id) = none ∧
      op = Op.dropColumn old.name c.name := by
  unfold dropList at hop
  rcases List.mem_map.mp hop with ⟨c, hc, rfl⟩
  rcases List.mem_filter.mp hc with ⟨hmem, hcond⟩
  refine ⟨c, hmem, ?_, rfl⟩
  rcases hfind : new.columns.find? fun n => c.id == n.id with _ | v
  · exact hfind
  · rw [hfind] at hcond
    cases hcond

/-- For a predicate blind to table renames and catalog writes, counting over
the forward sequence is counting over its drop and add-or-rename parts. -/
theorem countP_updateUpOps_cols (old new : Table) (p : Op → Bool)
    (h1 : ∀ x y, p (Op.renameTable x y) = false)
    (h2 : ∀ t, p (Op.updateTableMetaData t) = false) :
    (updateUpOps old new).countP p =
      (dropList old new).countP p + (addRenameList old new).countP p := by
  rw [updateUpOps_eq]
  simp only [List.countP_append]
  by_cases h : (old.name != new.name) = true <;>
    simp [h, List.countP_cons, h1, h2]

/-- A predicate false on every drop operation counts nothing in the drop
phase. -/
theorem countP_dropList_zero (old new : Table) (p : Op → Bool)
    (h : ∀ t n, p (Op.dropColumn t n) = false) :
    (dropList old new).countP p = 0 := by
  refine List.countP_eq_zero.mpr fun op hop => ?_
  rcases mem_dropList hop with ⟨c, -, -, rfl⟩
  simp [h]

/-- An operation emitted for a column of the new table belongs to the
forward sequence. -/
theorem mem_updateUpOps_of_colOps {old new : Table} {x : Column} {op : Op}
    (hx : x ∈ new.columns) (hop : op ∈ colOps old x) : op ∈ updateUpOps old new := by
  rw [updateUpOps_eq]
  simp only [List.mem_append]
  exact Or.inl (Or.inl (Or.inr (List.mem_flatMap.mpr ⟨x, hx, hop⟩)))

/-- A drop operation of the drop phase belongs to the forward sequence. -/
theorem mem_updateUpOps_of_dropList {old new : Table} {op : Op}
    (hop : op ∈ dropList old new) : op ∈ updateUpOps old new := by
  rw [updateUpOps_eq]
  simp only [List.mem_append]
  exact Or.inl (Or.inl (Or.inl hop))

/-- No add operation is ever emitted for a column id already present in the
old table. -/
theorem addOfId_zero (old new : Table) (oc : Column) (hoc : oc ∈ old.columns) :
    (updateUpOps old new).countP (isAddOfId old.name oc.id) = 0 := by
  rw [countP_updateUpOps_cols _ _ _ (fun _ _ => rfl) (fun _ => rfl),
    countP_dropList_zero _ _ _ (fun _ _ => rfl)]
  rw [Nat.zero_add]
  refine countP_flatMap_zero _ _ _ fun x hx => List.countP_eq_zero.mpr fun op hop => ?_
  rcases mem_colOps hop with ⟨hf, rfl⟩ | ⟨m, -, -, rfl⟩
  · simp only [isAddOfId, Bool.and_eq_true, beq_iff_eq, not_and]
    intro _ hxid
    exact absurd (beq_iff_eq.mpr hxid.symm ▸ rfl : (oc.id == x.id) = true)
      (by simpa using List.find?_eq_none.mp hf oc hoc)
  · simp [isAddOfId]

/-- No drop operation is ever emitted for an old column whose id survives
into the new table, provided old column names are pairwise distinct. -/
theorem dropOf_zero_of_matched (old new : Table)
    (hno : (old.columns.map Column.name).Nodup) (oc nc : Column)
    (hoc : oc ∈ old.columns) (hnc : nc ∈ new.columns) (hid : oc.id = nc.id) :
    (updateUpOps old new).countP (isDropOf old.name oc.name) = 0 := by
  rw [countP_updateUpOps_cols _ _ _ (fun _ _ => rfl) (fun _ => rfl)]
  have h2 : (addRenameList old new).countP (isDropOf old.name oc.name) = 0 := by
    refine countP_flatMap_zero _ _ _ fun x hx => List.countP_eq_zero.mpr fun op hop => ?_
    rcases mem_colOps hop with ⟨-, rfl⟩ | ⟨m, -, -, rfl⟩ <;> simp [isDropOf]
  have h1 : (dropList old new).countP (isDropOf old.name oc.name) = 0 := by
    refine List.countP_eq_zero.mpr fun op hop => ?_
    rcases mem_dropList hop with ⟨c, hc, hfnone, rfl⟩
    simp only [isDropOf, Bool.and_eq_true, beq_iff_eq, not_and]
    intro _ hcn
    have hceq : c = oc := List.inj_on_of_nodup_map hno hc hoc hcn
    have := List.find?_eq_none.mp hfnone nc hnc
    rw [hceq] at this
    exact this (beq_iff_eq.mpr hid)
  rw [h1, h2]

/-- Case analysis, id present in both revisions under a different name: the
forward diff holds exactly one rename from the old name, it is the rename
to the new name, and no add or drop targets that column. -/
theorem renamed_column_ops (old new : Table)
    (hno : (old.columns.map Column.name).Nodup) (hnn : (new.columns.map Column.name).Nodup)
    (hio : (old.columns.map Column.id).Nodup) (hin : (new.columns.map Column.id).Nodup)
    (oc nc : Column) (hoc : oc ∈ old.columns) (hnc : nc ∈ new.columns)
    (hid : oc.id = nc.id) (hname : oc.name ≠ nc.name) :
    (updateUpOps old new).countP (isRenameFrom old.name oc.name) = 1 ∧
    Op.renameColumn old.name oc.name nc.name ∈ updateUpOps old new ∧
    (updateUpOps old new).countP (isAddOfId old.name oc.id) = 0 ∧
    (updateUpOps old new).countP (isDropOf old.name oc.name) = 0 := by
  have hfind : (old.columns.find? fun o => o.id == nc.id) = some oc := by
    rw [← hid]
    exact find?_by_id old.columns hio oc hoc
  have hcol : colOps old nc = [Op.renameColumn old.name oc.name nc.name] := by
    simp [colOps, hfind, bne_iff_ne.mpr hname]
  refine ⟨?_, ?_, addOfId_zero old new oc hoc,
    dropOf_zero_of_matched old new hno oc nc hoc hnc hid⟩
  · rw [countP_updateUpOps_cols _ _ _ (fun _ _ => rfl) (fun _ => rfl),
      countP_dropList_zero _ _ _ (fun _ _ => rfl), Nat.zero_add]
    unfold addRenameList
    rw [countP_flatMap_single _ _ _ (List.Nodup.of_map Column.name hnn) nc hnc ?_, hcol]
    · simp [isRenameFrom]
    · intro x hx hne
      refine List.countP_eq_zero.mpr fun op hop => ?_
      rcases mem_colOps hop with ⟨-, rfl⟩ | ⟨m, hf, -, rfl⟩
      · simp [isRenameFrom]
      · simp only [isRenameFrom, Bool.and_eq_true, beq_iff_eq, not_and]
        intro _ hmo
        have hmoc : m = oc :=
          List.inj_on_of_nodup_map hno (List.mem_of_find?_eq_some hf) hoc hmo
        have hmid : m.id = x.id := by
          have h0 := List.find?_some hf
          simpa using h0
        have hxnc : x = nc := by
          refine List.inj_on_of_nodup_map hin hx hnc ?_
          rw [← hmid, hmoc, hid]
        exact hne hxnc
  · refine mem_updateUpOps_of_colOps hnc ?_
    rw [hcol]
    exact List.mem_singleton.mpr rfl

/-- Case analysis, id present only in the new revision: the forward diff
holds exactly one add for that id, it adds the full new column, and no
rename targets that column's name. -/
theorem added_column_ops (old new : Table)
    (hnn : (new.columns.map Column.name).Nodup)
    (hin : (new.columns.map Column.id).Nodup)
    (nc : Column) (hnc : nc ∈ new.columns)
    (hnone : ∀ oc ∈ old.columns, oc.id ≠ nc.id) :
    (updateUpOps old new).countP (isAddOfId old.name nc.id) = 1 ∧
    Op.addColumn old.name nc ∈ updateUpOps old new ∧
    (updateUpOps old new).countP (isRenameTo old.name nc.name) = 0 := by
  have hfind : (old.columns.find? fun o => o.id == nc.id) = none := by
    refine List.find?_eq_none.mpr fun o ho => ?_
    simp only [beq_iff_eq]
    exact hnone o ho
  have hcol : colOps old nc = [Op.addColumn old.name nc] := by
    simp [colOps, hfind]
  refine ⟨?_, ?_, ?_⟩
  · rw [countP_updateUpOps_cols _ _ _ (fun _ _ => rfl) (fun _ => rfl),
      countP_dropList_zero _ _ _ (fun _ _ => rfl), Nat.zero_add]
    unfold addRenameList
    rw [countP_flatMap_single _ _ _ (List.Nodup.of_map Column.name hnn) nc hnc ?_, hcol]
    · simp [isAddOfId]
    · intro x hx hne
      refine List.countP_eq_zero.mpr fun op hop => ?_
      rcases mem_colOps hop with ⟨-, rfl⟩ | ⟨m, -, -, rfl⟩
      · simp only [isAddOfId, Bool.and_eq_true, beq_iff_eq, not_and]
        intro _ hxid
        exact hne (List.inj_on_of_nodup_map hin hx hnc hxid)
      · simp [isAddOfId]
  · refine mem_updateUpOps_of_colOps hnc ?_
    rw [hcol]
    exact List.mem_singleton.mpr rfl
  · rw [countP_updateUpOps_cols _ _ _ (fun _ _ => rfl) (fun _ => rfl),
      countP_dropList_zero _ _ _ (fun _ _ => rfl), Nat.zero_add]
    refine countP_flatMap_zero _ _ _ fun x hx => List.countP_eq_zero.mpr fun op hop => ?_
    rcases mem_colOps hop with ⟨-, rfl⟩ | ⟨m, hf, -, rfl⟩
    · simp [isRenameTo]
    · simp only [isRenameTo, Bool.and_eq_true, beq_iff_eq, not_and]
      intro _ hxn
      have hxnc : x = nc := List.inj_on_of_nodup_map hnn hx hnc hxn
      rw [hxnc, hfind] at hf
      cases hf

/-- Case analysis, id present only in the old revision: the forward diff
holds exactly one drop for that column's name, and no rename sources that
name. -/
theorem dropped_column_ops (old new : Table)
    (hno : (old.columns.map Column.name).Nodup)
    (oc : Column) (hoc : oc ∈ old.columns)
    (hnone : ∀ nc ∈ new.columns, nc.id ≠ oc.id) :
    (updateUpOps old new).countP (isDropOf old.name oc.name) = 1 ∧
    Op.dropColumn old.name oc.name ∈ updateUpOps old new ∧
    (updateUpOps old new).countP (isRenameFrom old.name oc.name) = 0 := by
  have hfnone : (new.columns.find? fun n => oc.id == n.id) = none := by
    refine List.find?_eq_none.mpr fun n hn => ?_
    simp only [beq_iff_eq]
    exact fun he => hnone n hn he.symm
  refine ⟨?_, ?_, ?_⟩
  · rw [countP_updateUpOps_cols _ _ _ (fun _ _ => rfl) (fun _ => rfl)]
    have h2 : (addRenameList old new).countP (isDropOf old.name oc.name) = 0 := by
      refine countP_flatMap_zero _ _ _ fun x hx => List.countP_eq_zero.mpr fun op hop => ?_
      rcases mem_colOps hop with ⟨-, rfl⟩ | ⟨m, -, -, rfl⟩ <;> simp [isDropOf]
    rw [h2, Nat.add_zero]
    unfold dropList
    rw [List.countP_map, List.countP_filter]
    refine countP_single_mem _ _ (List.Nodup.of_map Column.name hno) oc hoc ?_ ?_
    · simp [isDropOf, hfnone]
    · intro x hx hpx
      simp only [Function.comp, isDropOf, Bool.and_eq_true, beq_iff_eq] at hpx
      exact List.inj_on_of_nodup_map hno hx hoc hpx.1.2
  · refine mem_updateUpOps_of_dropList (List.mem_map.mpr ⟨oc, ?_, rfl⟩)
    exact List.mem_filter.mpr ⟨hoc, by simp [hfnone]⟩
  · rw [countP_updateUpOps_cols _ _ _ (fun _ _ => rfl) (fun _ => rfl),
      countP_dropList_zero _ _ _ (fun _ _ => rfl), Nat.zero_add]
    refine countP_flatMap_zero _ _ _ fun x hx => List.countP_eq_zero.mpr fun op hop => ?_
    rcases mem_colOps hop with ⟨-, rfl⟩ | ⟨m, hf, -, rfl⟩
    · simp [isRenameFrom]
    · simp only [isRenameFrom, Bool.and_eq_true, beq_iff_eq, not_and]
      intro _ hmo
      have hmoc : m = oc :=
        List.inj_on_of_nodup_map hno (List.mem_of_find?_eq_some hf) hoc hmo
      have hmid : m.id = x.id := by
        have h0 := List.find?_some hf
        simpa using h0
      refine hnone x hx ?_
      rw [← hmid, hmoc]

/-- Case analysis, id present in both revisions under the same name: the
forward diff holds no operation at all attributable to that column. -/
theorem unchanged_column_ops (old new : Table)
    (hno : (old.columns.map Column.name).Nodup) (hnn : (new.columns.map Column.name).Nodup)
    (hio : (old.columns.map Column.id).Nodup) (hin : (new.columns.map Column.id).Nodup)
    (oc nc : Column) (hoc : oc ∈ old.columns) (hnc : nc ∈ new.columns)
    (hid : oc.id = nc.id) (hname : oc.name = nc.name) :
    (updateUpOps old new).countP (isRenameFrom old.name oc.name) = 0 ∧
    (updateUpOps old new).countP (isRenameTo old.name nc.name) = 0 ∧
    (updateUpOps old new).countP (isAddOfId old.name oc.id) = 0 ∧
    (updateUpOps old new).countP (isDropOf old.name oc.name) = 0 := by
  have hfind : (old.columns.find? fun o => o.id == nc.id) = some oc := by
    rw [← hid]
    exact find?_by_id old.columns hio oc hoc
  refine ⟨?_, ?_, addOfId_zero old new oc hoc,
    dropOf_zero_of_matched old new hno oc nc hoc hnc hid⟩
  · rw [countP_updateUpOps_cols _ _ _ (fun _ _ => rfl) (fun _ => rfl),
      countP_dropList_zero _ _ _ (fun _ _ => rfl), Nat.zero_add]
    refine countP_flatMap_zero _ _ _ fun x hx => List.countP_eq_zero.mpr fun op hop => ?_
    rcases mem_colOps hop with ⟨-, rfl⟩ | ⟨m, hf, hmn, rfl⟩
    · simp [isRenameFrom]
    · simp only [isRenameFrom, Bool.and_eq_true, beq_iff_eq, not_and]
      intro _ hmo
      have hmoc : m = oc :=
        List.inj_on_of_nodup_map hno (List.mem_of_find?_eq_some hf) hoc hmo
      have hmid : m.id = x.id := by
        have h0 := List.find?_some hf
        simpa using h0
      have hxnc : x = nc := by
        refine List.inj_on_of_nodup_map hin hx hnc ?_
        rw [← hmid, hmoc, hid]
      rw [hmoc, hxnc] at hmn
      exact absurd hname (bne_iff_ne.mp hmn)
  · rw [countP_updateUpOps_cols _ _ _ (fun _ _ => rfl) (fun _ => rfl),
      countP_dropList_zero _ _ _ (fun _ _ => rfl), Nat.zero_add]
    refine countP_flatMap_zero _ _ _ fun x hx => List.countP_eq_zero.mpr fun op hop => ?_
    rcases mem_colOps hop with ⟨-, rfl⟩ | ⟨m, hf, hmn, rfl⟩
    · simp [isRenameTo]
    · simp only [isRenameTo, Bool.and_eq_true, beq_iff_eq, not_and]
      intro _ hxn
      have hxnc : x = nc := List.inj_on_of_nodup_map hnn hx hnc hxn
      rw [hxnc, hfind] at hf
      cases hf
      rw [hxnc] at hmn
      exact absurd hname (bne_iff_ne.mp hmn)

/-- C4 (amended): for every pair of revisions whose column names are unique
within each revision (as `validate` enforces) and whose column ids are,
additionally, pairwise distinct within each revision, and for every column:
id in both revisions under different names gives exactly one rename-column
(old name to new name) and no add or drop for that column; id only in the
new revision gives exactly one add-column and no rename to that column's
name; id only in the old revision gives exactly one drop-column and no
rename from that column's name; id in both under the same name gives no
operation at all for that column (its other attributes, such as the type,
are not inspected). -/
theorem c4_per_column_ops (old new : Table)
    (hno : (old.columns.map Column.name).Nodup) (hnn : (new.columns.map Column.name).Nodup)
    (hio : (old.columns.map Column.id).Nodup) (hin : (new.columns.map Column.id).Nodup) :
    (∀ oc ∈ old.columns, ∀ nc ∈ new.columns, oc.id = nc.id → oc.name ≠ nc.name →
      (updateUpOps old new).countP (isRenameFrom old.name oc.name) = 1 ∧
      Op.renameColumn old.name oc.name nc.name ∈ updateUpOps old new ∧
      (updateUpOps old new).countP (isAddOfId old.name oc.id) = 0 ∧
      (updateUpOps old new).countP (isDropOf old.name oc.name) = 0) ∧
    (∀ nc ∈ new.columns, (∀ oc ∈ old.columns, oc.id ≠ nc.id) →
      (updateUpOps old new).countP (isAddOfId old.name nc.id) = 1 ∧
      Op.addColumn old.name nc ∈ updateUpOps old new ∧
      (updateUpOps old new).countP (isRenameTo old.name nc.name) = 0) ∧
    (∀ oc ∈ old.columns, (∀ nc ∈ new.columns, nc.id ≠ oc.id) →
      (updateUpOps old new).countP (isDropOf old.name oc.name) = 1 ∧
      Op.dropColumn old.name oc.name ∈ updateUpOps old new ∧
      (updateUpOps old new).countP (isRenameFrom old.name oc.name) = 0) ∧
    (∀ oc ∈ old.columns, ∀ nc ∈ new.columns, oc.id = nc.id → oc.name = nc.name →
      (updateUpOps old new).countP (isRenameFrom old.name oc.name) = 0 ∧
      (updateUpOps old new).countP (isRenameTo old.name nc.name) = 0 ∧
      (updateUpOps old new).countP (isAddOfId old.name oc.id) = 0 ∧
      (updateUpOps old new).countP (isDropOf old.name oc.name) = 0) :=
  ⟨fun oc hoc nc hnc hid hname =>
      renamed_column_ops old new hno hnn hio hin oc nc hoc hnc hid hname,
    fun nc hnc hnone => added_column_ops old new hnn hin nc hnc hnone,
    fun oc hoc hnone => dropped_column_ops old new hno oc hoc hnone,
    fun oc hoc nc hnc hid hname =>
      unchanged_column_ops old new hno hnn hio hin oc nc hoc hnc hid hname⟩

/-- C4 evaluated on a concrete pair exercising a rename (C1), an add (C3)
and a drop (C2). -/
theorem c4_per_column_ops_witness :
    ((sealsOld.columns.map Column.name).Nodup ∧ (sealsNew.columns.map Column.name).Nodup ∧
      (sealsOld.columns.map Column.id).Nodup ∧ (sealsNew.columns.map Column.id).Nodup) ∧
    ((∀ oc ∈ sealsOld.columns, ∀ nc ∈ sealsNew.columns, oc.id = nc.id → oc.name ≠ nc.name →
      (updateUpOps sealsOld sealsNew).countP (isRenameFrom sealsOld.name oc.name) = 1 ∧
      Op.renameColumn sealsOld.name oc.name nc.name ∈ updateUpOps sealsOld sealsNew ∧
      (updateUpOps sealsOld sealsNew).countP (isAddOfId sealsOld.name oc.id) = 0 ∧
      (updateUpOps sealsOld sealsNew).countP (isDropOf sealsOld.name oc.name) = 0) ∧
    (∀ nc ∈ sealsNew.columns, (∀ oc ∈ sealsOld.columns, oc.id ≠ nc.id) →
      (updateUpOps sealsOld sealsNew).countP (isAddOfId sealsOld.name nc.id) = 1 ∧
      Op.addColumn sealsOld.name nc ∈ updateUpOps sealsOld sealsNew ∧
      (updateUpOps sealsOld sealsNew).countP (isRenameTo sealsOld.name nc.name) = 0) ∧
    (∀ oc ∈ sealsOld.columns, (∀ nc ∈ sealsNew.columns, nc.id ≠ oc.id) →
      (updateUpOps sealsOld sealsNew).countP (isDropOf sealsOld.name oc.name) = 1 ∧
      Op.dropColumn sealsOld.name oc.name ∈ updateUpOps sealsOld sealsNew ∧
      (updateUpOps sealsOld sealsNew).countP (isRenameFrom sealsOld.name oc.name) = 0) ∧
    (∀ oc ∈ sealsOld.columns, ∀ nc ∈ sealsNew.columns, oc.id = nc.id → oc.name = nc.name →
      (updateUpOps sealsOld sealsNew).countP (isRenameFrom sealsOld.name oc.name) = 0 ∧
      (updateUpOps sealsOld sealsNew).countP (isRenameTo sealsOld.name nc.name) = 0 ∧
      (updateUpOps sealsOld sealsNew).countP (isAddOfId sealsOld.name oc.id) = 0 ∧
      (updateUpOps sealsOld sealsNew).countP (isDropOf sealsOld.name oc.name) = 0)) :=
  ⟨⟨by decide, by decide, by decide, by decide⟩,
    c4_per_column_ops sealsOld sealsNew (by decide) (by decide) (by decide) (by decide)⟩

/-- C4 counterexample: both revisions pass `validate`, share their table id,
and the column id `c` occurs in both with different names — yet the diff
contains two rename operations for that column, not exactly one, because
duplicate column ids are not rejected. -/
theorem c4_counterexample :
    validate sampleRegistry dupIdOld = .ok () ∧
    validate sampleRegistry dupIdNew = .ok () ∧
    dupIdOld.id = dupIdNew.id ∧
    (⟨"c", "x", "text", none⟩ : Column) ∈ dupIdOld.columns ∧
    (⟨"c", "y", "text", none⟩ : Column) ∈ dupIdNew.columns ∧
    ("x" : String) ≠ "y" ∧
    ¬ ((updateUpOps dupIdOld dupIdNew).countP (isRenameFrom dupIdOld.name "x") = 1) :=
  ⟨rfl, rfl, rfl, by decide, by decide, by decide, by decide⟩

/-- C5: `validateUpdateTo` fails exactly when the two revisions' ids
differ; with equal ids it succeeds whatever else differs (a changed
declared type on an id-matched column included); and on failure the update
path renders no operation and touches no resource. -/
theorem c5_transition_guard (old newT : Table) :
    (validateUpdateTo old newT = .ok () ↔ old.id = newT.id) ∧
    ((∃ e, validateUpdateTo old newT = .error e) ↔ old.id ≠ newT.id) ∧
    (old.id ≠ newT.id →
      updateToOps old newT = .error "Table ID cannot be changed." ∧
      ∀ makeOk upOk, updateToTrace old newT makeOk upOk = []) := by
  unfold updateToOps updateToTrace validateUpdateTo
  by_cases h : old.id = newT.id
  · have hb : (old.id != newT.id) = false := by simp [h]
    simp [hb, h]
  · have hb : (old.id != newT.id) = true := bne_iff_ne.mpr h
    simp [hb, h]

/-- C6: creating a table whose name an existing table already bears fails
with the conflict error and renders no operation; under an unused name the
create path renders exactly the createTable-plus-catalog-insert unit. -/
theorem c6_create_conflict (catalog : List Table) (t : Table) :
    ((∃ u ∈ catalog, u.name = t.name) →
      createOps catalog t = .error "The table name already exists.") ∧
    ((∀ u ∈ catalog, u.name ≠ t.name) →
      createOps catalog t = .ok [Op.createTable t, Op.addTableMetaData t]) := by
  constructor
  · rintro ⟨u, hu, hname⟩
    unfold createOps findTableByName
    have hmem : u ∈ catalog.filter fun x => x.name == t.name :=
      List.mem_filter.mpr ⟨hu, beq_iff_eq.mpr hname⟩
    have hne : (catalog.filter fun x => x.name == t.name).length ≠ 0 := by
      intro hnil
      rw [List.length_eq_zero] at hnil
      rw [hnil] at hmem
      cases hmem
    have hb : ((catalog.filter fun x => x.name == t.name).length != 0) = true :=
      bne_iff_ne.mpr hne
    simp [hb]
  · intro h
    unfold createOps findTableByName
    have hempty : (catalog.filter fun x => x.name == t.name) = [] := by
      refine List.filter_eq_nil_iff.mpr fun u hu => ?_
      simp only [beq_iff_eq]
      exact h u hu
    simp [hempty]

/-- C8: the code breaks the release guarantee.  When `db.migrate.up`
rejects inside `updateTo`, the connection was acquired but `db.destroy()`
never runs (no try/finally guards it), while the success path does destroy
it — the failing path leaks the connection slot. -/
theorem c8_connection_leak :
    Ev.acquireConnection ∈ updateToTrace sealsOld sealsNew true false ∧
    Ev.destroyConnection ∉ updateToTrace sealsOld sealsNew true false ∧
    Ev.destroyConnection ∈ updateToTrace sealsOld sealsNew true true := by
  decide

/-- When every element maps to a success, the sequence is the success of
the map. -/
theorem mapExcept_ok {α β : Type} (f : α → Except String β) (g : α → β) (l : List α)
    (h : ∀ a ∈ l, f a = .ok (g a)) : mapExcept f l = .ok (l.map g) := by
  induction l with
  | nil => rfl
  | cons a l ih =>
    rw [List.map_cons]
    unfold mapExcept
    rw [h a (List.mem_cons_self a l), ih fun x hx => h x (List.mem_cons_of_mem a hx)]

/-- A successful sequence pairs every element with a success of its
image. -/
theorem mapExcept_ok_inv {α β : Type} (f : α → Except String β) (l : List α)
    (l2 : List β) (h : mapExcept f l = .ok l2) :
    List.Forall₂ (fun a b => f a = .ok b) l l2 := by
  induction l generalizing l2 with
  | nil =>
    unfold mapExcept at h
    cases h
    exact List.Forall₂.nil
  | cons a l ih =>
    unfold mapExcept at h
    cases hfa : f a with
    | error e =>
      rw [hfa] at h
      cases h
    | ok b =>
      rw [hfa] at h
      cases hrest : mapExcept f l with
      | error e =>
        rw [hrest] at h
        cases h
      | ok bs =>
        rw [hrest] at h
        cases h
        exact List.Forall₂.cons hfa (ih bs hrest)

/-- A key that is reserved or whose column's type is registered rehydrates
without error, to its described value. -/
theorem rehydrateValue_ok (reg : Registry) (dec : Value → Option Value) (t : Table)
    (k : String) (v : Value)
    (h : (k == "id" || k == "created_at" || k == "updated_at") = true ∨
      ((getColumnByName t k).bind fun c => reg c.type).isSome = true) :
    rehydrateValue reg dec t k v = .ok (rehydratedValue reg dec t k v) := by
  unfold rehydrateValue rehydratedValue
  by_cases hres : (k == "id" || k == "created_at" || k == "updated_at") = true
  · simp [hres]
  · rcases h with h | h
    · contradiction
    · rw [if_neg hres, if_neg hres]
      rcases hmeta : (getColumnByName t k).bind fun c => reg c.type with _ | meta
      · rw [hmeta] at h
        cases h
      · by_cases hj : meta.isJson = true
        · cases hdv : dec v <;> simp [hj, hdv]
        · simp [hj]

/-- C7: whenever every non-reserved key of the result set names a column
with a registered type (otherwise the source throws a TypeError before
finishing), rehydration completes and stores back, for every key, its
described value; and for a key of a JSON-requiring type that value is the
decoded value when decoding succeeds and the raw stored value, unchanged,
when decoding fails. -/
theorem c7_decode_or_passthrough (reg : Registry) (dec : Value → Option Value)
    (t : Table) (rows : List Row)
    (hres : ∀ row ∈ rows, ∀ kv ∈ row,
      (kv.1 == "id" || kv.1 == "created_at" || kv.1 == "updated_at") = true ∨
      ((getColumnByName t kv.1).bind fun c => reg c.type).isSome = true) :
    parseJsonColumns reg dec t rows =
      .ok (rows.map fun row => row.map fun kv =>
        (kv.1, rehydratedValue reg dec t kv.1 kv.2)) ∧
    (∀ k v meta, ((getColumnByName t k).bind fun c => reg c.type) = some meta →
      meta.isJson = true →
      (k == "id" || k == "created_at" || k == "updated_at") = false →
      (∀ v2, dec v = some v2 → rehydratedValue reg dec t k v = v2) ∧
      (dec v = none → rehydratedValue reg dec t k v = v)) := by
  constructor
  · unfold parseJsonColumns
    refine mapExcept_ok _ _ _ fun row hrow => ?_
    unfold parseJsonRow
    refine mapExcept_ok _ _ _ fun kv hkv => ?_
    have h1 := rehydrateValue_ok reg dec t kv.1 kv.2 (hres row hrow kv hkv)
    simp [h1, Except.map]
  · intro k v meta hmeta hjson hnres
    unfold rehydratedValue
    rw [if_neg (by simp [hnres]), hmeta]
    constructor
    · intro v2 hv2
      simp [hjson, hv2]
    · intro hv
      simp [hjson, hv]

/-- C7 evaluated on the concrete result set: the malformed stored value is
returned unchanged, the well-formed one decoded. -/
theorem c7_decode_or_passthrough_witness :
    (∀ row ∈ sampleRows, ∀ kv ∈ row,
      (kv.1 == "id" || kv.1 == "created_at" || kv.1 == "updated_at") = true ∨
      ((getColumnByName petsTable kv.1).bind fun c => sampleRegistry c.type).isSome = true) ∧
    (parseJsonColumns sampleRegistry sampleDec petsTable sampleRows =
      .ok (sampleRows.map fun row => row.map fun kv =>
        (kv.1, rehydratedValue sampleRegistry sampleDec petsTable kv.1 kv.2)) ∧
    (∀ k v meta,
      ((getColumnByName petsTable k).bind fun c => sampleRegistry c.type) = some meta →
      meta.isJson = true →
      (k == "id" || k == "created_at" || k == "updated_at") = false →
      (∀ v2, sampleDec v = some v2 →
        rehydratedValue sampleRegistry sampleDec petsTable k v = v2) ∧
      (sampleDec v = none →
        rehydratedValue sampleRegistry sampleDec petsTable k v = v))) :=
  ⟨by decide,
    c7_decode_or_passthrough sampleRegistry sampleDec petsTable sampleRows (by decide)⟩

/-- C10: rehydration never touches the reserved keys: per value, a
reserved key rehydrates to itself without error, and whenever
`parseJsonColumns` completes, every output row agrees with its input row
key for key, with the values under `id`, `created_at` and `updated_at`
unchanged — whatever the table's column types. -/
theorem c10_reserved_keys_unchanged (reg : Registry) (dec : Value → Option Value)
    (t : Table) (rows rows2 : List Row)
    (hok : parseJsonColumns reg dec t rows = .ok rows2) :
    (∀ k v, (k == "id" || k == "created_at" || k == "updated_at") = true →
      rehydrateValue reg dec t k v = .ok v) ∧
    List.Forall₂ (fun r r2 : Row =>
      List.Forall₂ (fun kv kv2 : String × Value => kv2.1 = kv.1 ∧
        ((kv.1 == "id" || kv.1 == "created_at" || kv.1 == "updated_at") = true →
          kv2.2 = kv.2)) r r2) rows rows2 := by
  constructor
  · intro k v h
    unfold rehydrateValue
    simp [h]
  · unfold parseJsonColumns at hok
    refine (mapExcept_ok_inv _ _ _ hok).imp ?_
    intro r r2 hr
    unfold parseJsonRow at hr
    refine (mapExcept_ok_inv _ _ _ hr).imp ?_
    intro kv kv2 hkv
    cases hrv : rehydrateValue reg dec t kv.1 kv.2 with
    | error e =>
      rw [hrv] at hkv
      cases hkv
    | ok v2 =>
      rw [hrv] at hkv
      cases hkv
      refine ⟨rfl, fun hres => ?_⟩
      unfold rehydrateValue at hrv
      rw [if_pos hres] at hrv
      cases hrv
      rfl

/-- C10 evaluated on the concrete result set: both rows keep their `id`
and `created_at` values bit for bit. -/
theorem c10_reserved_keys_unchanged_witness :
    parseJsonColumns sampleRegistry sampleDec petsTable sampleRows = .ok sampleRowsOut ∧
    ((∀ k v, (k == "id" || k == "created_at" || k == "updated_at") = true →
      rehydrateValue sampleRegistry sampleDec petsTable k v = .ok v) ∧
    List.Forall₂ (fun r r2 : Row =>
      List.Forall₂ (fun kv kv2 : String × Value => kv2.1 = kv.1 ∧
        ((kv.1 == "id" || kv.1 == "created_at" || kv.1 == "updated_at") = true →
          kv2.2 = kv.2)) r r2) sampleRows sampleRowsOut) :=
  ⟨rfl, c10_reserved_keys_unchanged sampleRegistry sampleDec petsTable
    sampleRows sampleRowsOut rfl⟩

end Pinniped
